import Mathlib

/-!
Verification of the `chabad_data` repository against its specification.

The repository consists of two Python batch scripts over one JSON corpus:
  * `create_search_index.py` (the Indexer): builds six facet indexes plus a
    document summary, writes one JSON index file and one text report.
  * `split_maamarim.py` (the Splitter): slices the document list into
    fixed-size chunks, writes per-chunk and per-document files plus a
    master facet-to-chunk cross-reference index.

This file gives a shallow embedding of both scripts.  Python strings are
Lean `String`s; the Python string methods used by the scripts
(`split`, `strip`, `lstrip`, `rstrip`, `lower`, `replace`, slicing, `in`)
are re-implemented below by structural recursion on the character list so
that every definition evaluates inside the kernel.  Python dicts (which
preserve insertion order) are association lists; `defaultdict(list)`
append becomes `listUpsert`; the guarded append of the Splitter's master
index becomes `addChunkIfAbsent`.  JSON objects with possibly-missing
fields become structures whose fields carry the same defaults the scripts
pass to `dict.get`; the document `id` is `Option String` because the two
scripts default it differently (`'unknown'` vs `None`).
-/

/-- Python `s.split(c)` for a single-character separator: split the
character list at every occurrence of `c`, keeping empty segments
(so `"".split(';') == ['']`). -/
def splitCharsAux (c : Char) : List Char → List Char → List (List Char)
  | [], acc => [acc.reverse]
  | x :: xs, acc =>
      if x = c then acc.reverse :: splitCharsAux c xs []
      else splitCharsAux c xs (x :: acc)

/-- Python `s.split(c)` on `String`. -/
def pySplitOn (s : String) (c : Char) : List String :=
  (splitCharsAux c s.data []).map String.mk

/-- Groups of consecutive non-whitespace characters, as used by Python
`s.split()` with no argument (whitespace runs are separators, no empty
tokens are produced). -/
def wsTokensAux : List Char → List Char → List (List Char)
  | [], acc => if acc.isEmpty then [] else [acc.reverse]
  | x :: xs, acc =>
      if x.isWhitespace then
        if acc.isEmpty then wsTokensAux xs [] else acc.reverse :: wsTokensAux xs []
      else wsTokensAux xs (x :: acc)

/-- Python `s.split()`: whitespace-delimited tokens, empties discarded. -/
def pySplitWs (s : String) : List String :=
  (wsTokensAux s.data []).map String.mk

/-- Python `s.strip()`: remove leading and trailing whitespace. -/
def pyStrip (s : String) : String :=
  String.mk (((s.data.dropWhile Char.isWhitespace).reverse.dropWhile Char.isWhitespace).reverse)

/-- Python `s.lstrip(c)` for a single strip character. -/
def pyLstrip (s : String) (c : Char) : String :=
  String.mk (s.data.dropWhile (· = c))

/-- Python `s.rstrip(chars)`: remove trailing characters belonging to the
given set. -/
def pyRstrip (s : String) (cs : List Char) : String :=
  String.mk ((s.data.reverse.dropWhile (cs.contains ·)).reverse)

/-- Python `c in s` for a single character. -/
def pyContains (s : String) (c : Char) : Bool :=
  s.data.contains c

/-- Python `s.split(c, 1)[0]`: the text before the first occurrence of `c`
(equal to `s` when `c` is absent).  Also equals `s.split(c)[0]`. -/
def pySplitBefore (s : String) (c : Char) : String :=
  String.mk (s.data.takeWhile (· ≠ c))

/-- Python `s.split(c, 1)[1]`: the text after the first occurrence of `c`.
The scripts only use it under a `c in s` guard. -/
def pySplitAfter (s : String) (c : Char) : String :=
  String.mk ((s.data.dropWhile (· ≠ c)).drop 1)

/-- Python `s.split(c)[1]` (no maxsplit): the text strictly between the
first and the second occurrence of `c` (up to the end if `c` occurs once).
The scripts use it under a `c in s` guard. -/
def pySplitField1 (s : String) (c : Char) : String :=
  String.mk (((s.data.dropWhile (· ≠ c)).drop 1).takeWhile (· ≠ c))

/-- Python `s.lower()` (ASCII case folding, as `Char.toLower`). -/
def pyLower (s : String) : String :=
  String.mk (s.data.map Char.toLower)

/-- Python `s.replace(old, new)` for single-character `old`/`new`, as used
to sanitize document ids. -/
def pyReplaceChar (s : String) (old new : Char) : String :=
  String.mk (s.data.map (fun ch => if ch = old then new else ch))

/-- Python `len(s)` (number of characters). -/
def pyLen (s : String) : Nat := s.data.length

/-- Python `s[:n]` (first `n` characters). -/
def pyTake (s : String) (n : Nat) : String := String.mk (s.data.take n)

/-- Python list slice `l[a:b]`. -/
def pySlice (l : List α) (a b : Nat) : List α := (l.take b).drop a

/-- Python truthiness of a string: non-empty. -/
def pyTruthy (s : String) : Bool := s ≠ ""

/-- Ordered dictionary of lists with `defaultdict(list)` append semantics:
append `v` to the list at key `k`, inserting the key at the end when it is
new.  Insertion order of keys is preserved. -/
def listUpsert [DecidableEq κ] (m : List (κ × List β)) (k : κ) (v : β) :
    List (κ × List β) :=
  match m with
  | [] => [(k, [v])]
  | (k', vs) :: rest =>
      if k' = k then (k', vs ++ [v]) :: rest
      else (k', vs) :: listUpsert rest k v

/-- Ordered dictionary assignment `m[k] = v` (overwrite, key appended at
the end when new). -/
def dictSet [DecidableEq κ] (m : List (κ × β)) (k : κ) (v : β) :
    List (κ × β) :=
  match m with
  | [] => [(k, v)]
  | (k', v') :: rest =>
      if k' = k then (k', v) :: rest
      else (k', v') :: dictSet rest k v

/-- Lookup in an ordered dictionary (Python `m.get(k)` / `k in m`). -/
def dictGet [DecidableEq κ] (m : List (κ × β)) (k : κ) : Option β :=
  match m with
  | [] => none
  | (k', v) :: rest => if k' = k then some v else dictGet rest k

/-- Keys of an ordered dictionary, in insertion order. -/
def dictKeys (m : List (κ × β)) : List κ := m.map Prod.fst

/-- Guarded append used throughout the Splitter's master index: append the
chunk number `c` to the list at key `k` only when it is not already
present (`if chunk_num + 1 not in master_index[...][key]`). -/
def addChunkIfAbsent (m : List (String × List Nat)) (k : String) (c : Nat) :
    List (String × List Nat) :=
  match m with
  | [] => [(k, [c])]
  | (k', cs) :: rest =>
      if k' = k then (k', if c ∈ cs then cs else cs ++ [c]) :: rest
      else (k', cs) :: addChunkIfAbsent rest k c

/-- Metadata of a document.  Each field carries the default that the
scripts supply to `metadata.get(...)`, so an absent JSON field and a field
holding the default are indistinguishable — exactly as in the code. -/
structure Metadata where
  hebrew_date : String := ""
  gregorian_date : String := ""
  opening_phrase : String := ""
  topics : List String := []
  key_concepts : List String := []
  biblical_references : List String := []
  talmudic_references : List String := []
  chassidic_references : List String := []
  word_count : Nat := 0
  chunk_count : Nat := 0
deriving DecidableEq

/-- Content of a document, with the scripts' `content.get` defaults. -/
structure Content where
  main_text : String := ""
  main_text_chunks : List String := []
  glossary : String := ""
deriving DecidableEq

/-- One document of the corpus.  The `id` is optional because the Indexer
reads it as `doc.get('id', 'unknown')` while the Splitter reads it as
`doc.get('id')`, i.e. `None` when missing. -/
structure Doc where
  id : Option String := none
  reference : String := ""
  metadata : Metadata := {}
  content : Content := {}
deriving DecidableEq

/-- Top-level collection metadata.  The only field the scripts read is
`date_range` (with default `'Unknown'`). -/
structure CollMeta where
  date_range : String := "Unknown"
deriving DecidableEq

/-- Parsed top-level input file.  `collection_metadata` is optional
because the Indexer accesses it as `data['collection_metadata']`, which
raises `KeyError` when the key is missing, while the Splitter uses
`data.get('collection_metadata', {})`. -/
structure InputData where
  documents : List Doc := []
  collection_metadata : Option CollMeta := none
deriving DecidableEq

/-- Record appended to `topic_index[topic]` by the Indexer. -/
structure TopicRef where
  doc_id : String
  reference : String
  hebrew_date : String
  opening_phrase : String
deriving DecidableEq

/-- Record appended to `concept_index[concept]` by the Indexer. -/
structure ConceptRef where
  doc_id : String
  reference : String
  topics : List String
deriving DecidableEq

/-- Record appended to `opening_phrase_index[opening]` by the Indexer. -/
structure PhraseRef where
  doc_id : String
  hebrew_date : String
  topics : List String
deriving DecidableEq

/-- Record appended to `glossary_index[key]`.  The three constructors
mirror the three distinct dict shapes the Indexer appends: keyed by the
Hebrew term, by the transliteration, and by an English-definition
keyword. -/
inductive GlossRef
  | byHebrew (doc_id transliteration definition hebrew_date : String)
  | byTranslit (doc_id hebrew_term definition hebrew_date : String)
  | byKeyword (doc_id hebrew_term full_definition hebrew_date : String)
deriving DecidableEq

/-- One entry of the Indexer's `document_summary` list. -/
structure Summary where
  id : String
  reference : String
  hebrew_date : String
  gregorian_date : String
  opening_phrase : String
  topics : List String
  key_concepts : List String
  word_count : Nat
  chunk_count : Nat
deriving DecidableEq

/-- The six facet indexes plus the document summary accumulated by the
Indexer's main loop. -/
structure IndexState where
  topic_index : List (String × List TopicRef) := []
  date_index : List (String × List String) := []
  concept_index : List (String × List ConceptRef) := []
  reference_index : List (String × List String) := []
  opening_phrase_index : List (String × List PhraseRef) := []
  glossary_index : List (String × List GlossRef) := []
  document_summary : List Summary := []
deriving DecidableEq

/-- Candidate glossary entries: strip the leading `|`, split on `;`, trim
each segment and discard the empty ones
(`[e.strip() for e in glossary_text.split(';') if e.strip()]`). -/
def glossaryCandidates (glossary_text : String) : List String :=
  ((pySplitOn (pyLstrip glossary_text '|') ';').map pyStrip).filter (fun e => pyTruthy e)

/-- Hebrew term of one glossary entry's part before the colon: the text
before `(` (trimmed) when a parenthesis is present, the whole part
otherwise.  Both scripts compute it identically. -/
def hebrewTermOf (hebrew_part : String) : String :=
  if pyContains hebrew_part '(' then pyStrip (pySplitBefore hebrew_part '(')
  else hebrew_part

/-- Transliteration of one glossary entry: `split('(')[1].rstrip(')').strip()`
when a parenthesis is present, empty otherwise. -/
def translitOf (hebrew_part : String) : String :=
  if pyContains hebrew_part '(' then pyStrip (pyRstrip (pySplitField1 hebrew_part '(') [')'])
  else ""

/-- Structured glossary entry. -/
structure GlossEntry where
  hebrew_term : String
  transliteration : String
  english_definition : String
deriving DecidableEq

/-- Parse one candidate glossary entry, skipping it (`none`) when it
contains no `:`; otherwise split once on the first `:` and extract the
Hebrew term, the transliteration and the trimmed English definition. -/
def parseGlossEntry (entry : String) : Option GlossEntry :=
  if pyContains entry ':' then
    let hebrew_part := pyStrip (pySplitBefore entry ':')
    let english_part := pyStrip (pySplitAfter entry ':')
    some ⟨hebrewTermOf hebrew_part, translitOf hebrew_part, english_part⟩
  else none

/-- Full glossary parse of one document's glossary string, including the
outer `if glossary_text and glossary_text.strip():` guard. -/
def parseGlossary (glossary_text : String) : List GlossEntry :=
  if pyTruthy glossary_text ∧ pyTruthy (pyStrip glossary_text) then
    (glossaryCandidates glossary_text).filterMap parseGlossEntry
  else []

/-- Stop-word set of the Indexer's English-keyword expansion. -/
def stopWords : List String := ["the", "and", "of", "in", "to", "a", "an"]

/-- English-keyword registrations of one glossary entry: the first three
whitespace tokens of the definition, kept when longer than 3 characters
and, after lowering and stripping trailing `.,;:`, not a stop word.  The
lowered and stripped form is the index key. -/
def keywordRegs (doc_id hebrew_term english_part hebrew_date : String) :
    List (String × GlossRef) :=
  if pyTruthy english_part then
    ((pySplitWs english_part).take 3).filterMap (fun word =>
      if pyLen word > 3 then
        let word_lower := pyRstrip (pyLower word) ['.', ',', ';', ':']
        if word_lower ∉ stopWords then
          some (word_lower, GlossRef.byKeyword doc_id hebrew_term english_part hebrew_date)
        else none
      else none)
  else []

/-- All glossary-index registrations of one candidate entry: under the
Hebrew term when non-empty, under the transliteration when non-empty, and
under each selected English keyword. -/
def entryRegs (doc_id hebrew_date : String) (entry : String) :
    List (String × GlossRef) :=
  match parseGlossEntry entry with
  | none => []
  | some g =>
      (if pyTruthy g.hebrew_term then
        [(g.hebrew_term,
          GlossRef.byHebrew doc_id g.transliteration g.english_definition hebrew_date)]
      else [])
      ++ (if pyTruthy g.transliteration then
        [(g.transliteration,
          GlossRef.byTranslit doc_id g.hebrew_term g.english_definition hebrew_date)]
      else [])
      ++ keywordRegs doc_id g.hebrew_term g.english_definition hebrew_date

/-- Glossary-index registrations of one whole document. -/
def glossaryRegs (doc_id hebrew_date glossary_text : String) :
    List (String × GlossRef) :=
  if pyTruthy glossary_text ∧ pyTruthy (pyStrip glossary_text) then
    ((glossaryCandidates glossary_text).map (entryRegs doc_id hebrew_date)).flatten
  else []

/-- Document-summary entry the Indexer builds for one document, with the
per-document word-count fallback (`if word_count == 0 and main_text`) and
chunk-count fallback (`if chunk_count == 0`). -/
def mkSummary (doc : Doc) : Summary :=
  let doc_id := doc.id.getD "unknown"
  let metadata := doc.metadata
  let content := doc.content
  let word_count :=
    if metadata.word_count = 0 ∧ pyTruthy content.main_text then
      (pySplitWs content.main_text).length
    else metadata.word_count
  let chunk_count :=
    if metadata.chunk_count = 0 then content.main_text_chunks.length
    else metadata.chunk_count
  { id := doc_id, reference := doc.reference, hebrew_date := metadata.hebrew_date,
    gregorian_date := metadata.gregorian_date,
    opening_phrase := metadata.opening_phrase, topics := metadata.topics,
    key_concepts := metadata.key_concepts, word_count := word_count,
    chunk_count := chunk_count }

/-- One iteration of the Indexer's main loop (`for doc in documents:`),
updating the summary and the six facet indexes. -/
def processDoc (st : IndexState) (doc : Doc) : IndexState :=
  let doc_id := doc.id.getD "unknown"
  let metadata := doc.metadata
  let content := doc.content
  let topic_index := metadata.topics.foldl (fun ti topic =>
      if pyTruthy (pyStrip topic) then
        listUpsert ti topic
          ⟨doc_id, doc.reference, metadata.hebrew_date, metadata.opening_phrase⟩
      else ti) st.topic_index
  let date_index :=
    let d1 :=
      if pyTruthy metadata.hebrew_date then
        listUpsert st.date_index metadata.hebrew_date doc_id
      else st.date_index
    if pyTruthy metadata.gregorian_date then
      listUpsert d1 metadata.gregorian_date doc_id
    else d1
  let concept_index := metadata.key_concepts.foldl (fun ci concept =>
      if pyTruthy (pyStrip concept) then
        listUpsert ci concept ⟨doc_id, doc.reference, metadata.topics⟩
      else ci) st.concept_index
  let all_refs := metadata.biblical_references ++ metadata.talmudic_references
      ++ metadata.chassidic_references
  let reference_index := all_refs.foldl (fun ri ref =>
      if pyTruthy (pyStrip ref) then listUpsert ri ref doc_id else ri)
      st.reference_index
  let opening_phrase_index :=
    if pyTruthy (pyStrip metadata.opening_phrase) then
      listUpsert st.opening_phrase_index metadata.opening_phrase
        ⟨doc_id, metadata.hebrew_date, metadata.topics⟩
    else st.opening_phrase_index
  let glossary_index :=
    (glossaryRegs doc_id metadata.hebrew_date content.glossary).foldl
      (fun gi kr => listUpsert gi kr.1 kr.2) st.glossary_index
  { topic_index := topic_index, date_index := date_index,
    concept_index := concept_index, reference_index := reference_index,
    opening_phrase_index := opening_phrase_index,
    glossary_index := glossary_index,
    document_summary := st.document_summary ++ [mkSummary doc] }

/-- The Indexer's aggregation pass over the whole document list. -/
def buildIndexState (documents : List Doc) : IndexState :=
  documents.foldl processDoc {}

/-- String of `n` copies of a character (Python `c * n`). -/
def repeatChar (c : Char) (n : Nat) : String := String.mk (List.replicate n c)

/-- Date line of one summary block: Hebrew and Gregorian combined, either
alone, or `N/A`. -/
def dateLineOf (doc : Summary) : String :=
  if pyTruthy doc.hebrew_date ∧ pyTruthy doc.gregorian_date then
    doc.hebrew_date ++ " (" ++ doc.gregorian_date ++ ")"
  else if pyTruthy doc.hebrew_date then doc.hebrew_date
  else if pyTruthy doc.gregorian_date then "(" ++ doc.gregorian_date ++ ")"
  else "N/A"

/-- Opening phrase of one summary block, truncated to 50 characters with a
trailing ellipsis when longer. -/
def openingDisplayOf (doc : Summary) : String :=
  if pyTruthy doc.opening_phrase then
    (if pyLen doc.opening_phrase > 50 then pyTake doc.opening_phrase 50 ++ "..."
     else doc.opening_phrase)
  else "N/A"

/-- Topics line of one summary block: bilingual topic/concept pairs for up
to 10 topics, with a `+N more` suffix when truncated. -/
def topicsLineOf (doc : Summary) : String :=
  let topics := doc.topics
  let concepts := doc.key_concepts
  if topics ≠ [] then
    let topics_to_show := topics.take 10
    let topic_pairs := topics_to_show.enum.map (fun p =>
      if p.1 < concepts.length ∧ pyTruthy (concepts.getD p.1 "") then
        p.2 ++ " (" ++ concepts.getD p.1 "" ++ ")"
      else p.2)
    let topics_str := String.intercalate ", " topic_pairs
    let topics_str2 :=
      if topics.length > 10 then
        topics_str ++ " (+" ++ toString (topics.length - 10) ++ " more)"
      else topics_str
    "Topics: " ++ topics_str2 ++ "\n"
  else "Topics: N/A\n"

/-- The writes of one per-document summary block of the text report. -/
def docSummaryBlock (doc : Summary) : List String :=
  ["ID: " ++ doc.id ++ "\n",
   "Date: " ++ dateLineOf doc ++ "\n",
   "Opening: " ++ openingDisplayOf doc ++ "\n",
   topicsLineOf doc,
   "Words: " ++ toString doc.word_count ++ ", Chunks: " ++ toString doc.chunk_count ++ "\n\n"]

/-- Stable insertion keeping the inserted element after every earlier
element whose key is at least as large.  Building block of
`stableSortDescBy`. -/
def insertDescBy (key : α → Nat) (x : α) : List α → List α
  | [] => [x]
  | y :: ys => if key x ≥ key y then x :: y :: ys else y :: insertDescBy key x ys

/-- Model of Python `sorted(items, key=key, reverse=True)`: a stable sort
in descending key order.  Python's sort is stable, and a stable sort's
output is uniquely determined by the key, so this structural insertion
sort computes exactly the list `sorted` returns. -/
def stableSortDescBy (key : α → Nat) : List α → List α
  | [] => []
  | x :: xs => insertDescBy key x (stableSortDescBy key xs)

/-- Topic ranking of the report: `sorted(topic_index.items(),
key=lambda x: len(x[1]), reverse=True)`. -/
def sortedTopicsOf (st : IndexState) : List (String × List TopicRef) :=
  stableSortDescBy (fun p => p.2.length) st.topic_index

/-- Concept ranking of the report. -/
def sortedConceptsOf (st : IndexState) : List (String × List ConceptRef) :=
  stableSortDescBy (fun p => p.2.length) st.concept_index

/-- One step of the topic-to-representative-concept pass: enumerate the
document's topics and, when a parallel concept exists and the topic is not
yet in the mapping, record that concept. -/
def addTopicConcepts (tc : List (String × String))
    (doc_topics doc_concepts : List String) : List (String × String) :=
  doc_topics.enum.foldl (fun m p =>
    if p.1 < doc_concepts.length ∧ dictGet m p.2 = none then
      dictSet m p.2 (doc_concepts.getD p.1 "")
    else m) tc

/-- The separate pass over the raw documents (not over the aggregated
topic index) that builds the `topic_to_concept` mapping of the report. -/
def buildTopicToConcept (documents : List Doc) : List (String × String) :=
  documents.foldl
    (fun tc doc => addTopicConcepts tc doc.metadata.topics doc.metadata.key_concepts) []

/-- One line of the `TOP TOPICS` section: topic, representative concept
when known, and the size of the topic's reference list. -/
def topTopicLine (topic_to_concept : List (String × String))
    (p : String × List TopicRef) : String :=
  let concept := (dictGet topic_to_concept p.1).getD ""
  if pyTruthy concept then
    p.1 ++ " (" ++ concept ++ "): " ++ toString p.2.length ++ " documents\n"
  else p.1 ++ ": " ++ toString p.2.length ++ " documents\n"

/-- The writes of the `TOP TOPICS` section body: only the first 15 ranked
topics are printed. -/
def topTopicWrites (documents : List Doc) (st : IndexState) : List String :=
  ((sortedTopicsOf st).take 15).map (topTopicLine (buildTopicToConcept documents))

/-- The writes of the `TOP CONCEPTS` section body. -/
def topConceptWrites (st : IndexState) : List String :=
  ((sortedConceptsOf st).take 15).map
    (fun p => p.1 ++ ": " ++ toString p.2.length ++ " documents\n")

/-- Header writes of the text report, up to (excluding) the date-range
line. -/
def quickRefHeader (st : IndexState) : List String :=
  ["MAAMARIM COLLECTION - QUICK REFERENCE\n",
   repeatChar '=' 50 ++ "\n\n",
   "Total Documents: " ++ toString st.document_summary.length ++ "\n",
   "Total Unique Topics: " ++ toString st.topic_index.length ++ "\n",
   "Total Unique Concepts: " ++ toString st.concept_index.length ++ "\n"]

/-- The sequence of writes of the quick-reference report.  The date-range
line reads `data['collection_metadata']` by direct subscript; when the key
is missing this raises `KeyError`, so the report generation fails after
the header writes have already gone out (`Except.error` carries the writes
performed before the failure). -/
def quickRefWrites (data : InputData) (st : IndexState) :
    Except (List String) (List String) :=
  let header := quickRefHeader st
  match data.collection_metadata with
  | none => Except.error header
  | some cm =>
    Except.ok (header
      ++ ["Date Range: " ++ cm.date_range ++ "\n\n"]
      ++ ["DOCUMENT SUMMARY:\n", repeatChar '-' 20 ++ "\n"]
      ++ (st.document_summary.map docSummaryBlock).flatten
      ++ ["TOP TOPICS:\n", repeatChar '-' 15 ++ "\n"]
      ++ topTopicWrites data.documents st
      ++ ["\nTOP CONCEPTS:\n", repeatChar '-' 15 ++ "\n"]
      ++ topConceptWrites st)

/-- Outcome of one Indexer run on parsed input: either both outputs were
produced in full, or the run aborted while writing the report — after the
JSON search index file was already fully written — leaving only the
report's prefix behind. -/
inductive IndexerOutcome
  | completed (index : IndexState) (report : List String)
  | abortedDuringReport (index : IndexState) (reportPrefix : List String)
deriving DecidableEq

/-- Whether a run produced both outputs in full. -/
def IndexerOutcome.isCompleted : IndexerOutcome → Bool
  | .completed _ _ => true
  | .abortedDuringReport _ _ => false

/-- The search index built by a run, written to disk before the report is
attempted. -/
def IndexerOutcome.index : IndexerOutcome → IndexState
  | .completed st _ => st
  | .abortedDuringReport st _ => st

/-- The Indexer `create_search_indexes` on parsed input: aggregate all
indexes, write the JSON index file, then write the text report (which can
fail on the `data['collection_metadata']` subscript). -/
def create_search_indexes (data : InputData) : IndexerOutcome :=
  let st := buildIndexState data.documents
  match quickRefWrites data st with
  | Except.ok report => IndexerOutcome.completed st report
  | Except.error part => IndexerOutcome.abortedDuringReport st part

/-- Number of chunks: `(len(documents) + docs_per_chunk - 1) // docs_per_chunk`. -/
def numChunks (n docs_per_chunk : Nat) : Nat :=
  (n + docs_per_chunk - 1) / docs_per_chunk

/-- The documents of chunk `chunk_num` (0-based):
`documents[start_idx:end_idx]` with `start_idx = chunk_num * docs_per_chunk`
and `end_idx = min(start_idx + docs_per_chunk, len(documents))`. -/
def chunkDocs (documents : List Doc) (docs_per_chunk chunk_num : Nat) : List Doc :=
  pySlice documents (chunk_num * docs_per_chunk)
    (min (chunk_num * docs_per_chunk + docs_per_chunk) documents.length)

/-- All chunks of the Splitter run, in chunk order. -/
def chunksOf (documents : List Doc) (docs_per_chunk : Nat) : List (List Doc) :=
  (List.range (numChunks documents.length docs_per_chunk)).map
    (chunkDocs documents docs_per_chunk)

/-- Per-chunk entry of the master index's `chunk_info` mapping. -/
structure ChunkInfo where
  document_ids : List (Option String)
  document_count : Nat
deriving DecidableEq

/-- The Splitter's master cross-reference index. -/
structure MasterIndex where
  chunk_info : List (Nat × ChunkInfo) := []
  topic_to_chunks : List (String × List Nat) := []
  concept_to_chunks : List (String × List Nat) := []
  doc_id_to_chunk : List (Option String × Nat) := []
  date_to_chunks : List (String × List Nat) := []
  opening_phrase_to_chunks : List (String × List Nat) := []
  glossary_term_to_chunks : List (String × List Nat) := []
deriving DecidableEq

/-- Master-index update for one candidate glossary entry of the Splitter:
entries without `:` are skipped; otherwise the Hebrew term and the
transliteration (when non-empty) each get the chunk number appended if
absent.  No English-keyword expansion happens here. -/
def splitterGlossUpdate (c : Nat) (m : List (String × List Nat)) (entry : String) :
    List (String × List Nat) :=
  if pyContains entry ':' then
    let hebrew_part := pyStrip (pySplitBefore entry ':')
    let hebrew_term := hebrewTermOf hebrew_part
    let transliteration := translitOf hebrew_part
    let m1 := if pyTruthy hebrew_term then addChunkIfAbsent m hebrew_term c else m
    if pyTruthy transliteration then addChunkIfAbsent m1 transliteration c else m1
  else m

/-- Master-index update for one document lying in chunk `c` (1-based):
`doc_id_to_chunk` assignment, then guarded appends for topics, concepts,
Hebrew and Gregorian dates, non-empty opening phrase, and glossary
terms. -/
def processDocMaster (c : Nat) (st : MasterIndex) (doc : Doc) : MasterIndex :=
  let metadata := doc.metadata
  let doc_id_to_chunk := dictSet st.doc_id_to_chunk doc.id c
  let topic_to_chunks :=
    metadata.topics.foldl (fun m topic => addChunkIfAbsent m topic c)
      st.topic_to_chunks
  let concept_to_chunks :=
    metadata.key_concepts.foldl (fun m concept => addChunkIfAbsent m concept c)
      st.concept_to_chunks
  let date_to_chunks :=
    let d1 :=
      if pyTruthy metadata.hebrew_date then
        addChunkIfAbsent st.date_to_chunks metadata.hebrew_date c
      else st.date_to_chunks
    if pyTruthy metadata.gregorian_date then
      addChunkIfAbsent d1 metadata.gregorian_date c
    else d1
  let opening_phrase_to_chunks :=
    if pyTruthy metadata.opening_phrase ∧ pyTruthy (pyStrip metadata.opening_phrase) then
      addChunkIfAbsent st.opening_phrase_to_chunks metadata.opening_phrase c
    else st.opening_phrase_to_chunks
  let glossary_text := doc.content.glossary
  let glossary_term_to_chunks :=
    if pyTruthy glossary_text ∧ pyTruthy (pyStrip glossary_text) then
      (glossaryCandidates glossary_text).foldl (splitterGlossUpdate c)
        st.glossary_term_to_chunks
    else st.glossary_term_to_chunks
  { st with doc_id_to_chunk := doc_id_to_chunk,
            topic_to_chunks := topic_to_chunks,
            concept_to_chunks := concept_to_chunks,
            date_to_chunks := date_to_chunks,
            opening_phrase_to_chunks := opening_phrase_to_chunks,
            glossary_term_to_chunks := glossary_term_to_chunks }

/-- Master-index updates of one whole chunk: record its `chunk_info`
entry, then process each contained document. -/
def processChunkMaster (documents : List Doc) (docs_per_chunk : Nat)
    (st : MasterIndex) (chunk_num : Nat) : MasterIndex :=
  let chunk_docs := chunkDocs documents docs_per_chunk chunk_num
  let chunk_info := dictSet st.chunk_info (chunk_num + 1)
      ⟨chunk_docs.map Doc.id, chunk_docs.length⟩
  chunk_docs.foldl (processDocMaster (chunk_num + 1)) { st with chunk_info := chunk_info }

/-- The full master index of a Splitter run (lines 44-146 of the source,
ignoring file writes). -/
def buildMasterIndex (documents : List Doc) (docs_per_chunk : Nat) : MasterIndex :=
  (List.range (numChunks documents.length docs_per_chunk)).foldl
    (processChunkMaster documents docs_per_chunk) {}

/-- Filename sanitization: `doc_id.replace('/', '_').replace('\\', '_')`. -/
def sanitizeId (doc_id : String) : String :=
  pyReplaceChar (pyReplaceChar doc_id '/' '_') '\\' '_'

/-- The per-document file loop of one chunk.  `doc.get('id')` yields
`None` for a document without an id, and `None.replace(...)` raises
`AttributeError`, killing the run: modelled as `Except.error`.  On success
the produced filenames are returned. -/
def writeDocFiles : List Doc → Except Unit (List String)
  | [] => Except.ok []
  | doc :: rest =>
      match doc.id with
      | none => Except.error ()
      | some doc_id =>
          match writeDocFiles rest with
          | Except.ok files =>
              Except.ok (("maamarim_docs/maamarim_doc_" ++ sanitizeId doc_id ++ ".json") :: files)
          | Except.error e => Except.error e

/-- One iteration of the Splitter's chunk loop: write the chunk file and
the master-index updates, then the per-document files (which can abort the
run). -/
def splitterChunkStep (documents : List Doc) (docs_per_chunk : Nat)
    (st : MasterIndex × List String) (chunk_num : Nat) :
    Except Unit (MasterIndex × List String) :=
  let st' := processChunkMaster documents docs_per_chunk st.1 chunk_num
  match writeDocFiles (chunkDocs documents docs_per_chunk chunk_num) with
  | Except.ok files => Except.ok (st', st.2 ++ files)
  | Except.error e => Except.error e

/-- The Splitter `split_maamarim_file` on parsed input: run the chunk loop;
the result is the master index and the per-document filenames, or an abort
when some document has no id. -/
def split_maamarim_file (documents : List Doc) (docs_per_chunk : Nat) :
    Except Unit (MasterIndex × List String) :=
  (List.range (numChunks documents.length docs_per_chunk)).foldlM
    (splitterChunkStep documents docs_per_chunk) ({}, [])

/-- Whether a fallible run completed. -/
def exceptIsOk : Except ε α → Bool
  | Except.ok _ => true
  | Except.error _ => false

/-! Helper lemmas about the Splitter's chunk arithmetic. -/

theorem numChunks_zero (k : Nat) : numChunks 0 k = 0 := by
  unfold numChunks
  rcases k with _ | k
  · rfl
  · exact Nat.div_eq_of_lt (by omega)

theorem numChunks_eq (k n : Nat) (hk : 0 < k) (hn : 0 < n) :
    numChunks n k = (n - 1) / k + 1 := by
  unfold numChunks
  have h1 : n + k - 1 = k + (n - 1) := by omega
  rw [h1, Nat.add_div_left _ hk]

theorem numChunks_succ (k n : Nat) (hk : 0 < k) (hn : 0 < n) :
    numChunks n k = numChunks (n - k) k + 1 := by
  rcases le_or_lt n k with hle | hlt
  · have h0 : n - k = 0 := by omega
    rw [h0, numChunks_zero, numChunks_eq k n hk hn,
      Nat.div_eq_of_lt (show n - 1 < k by omega)]
  · rw [numChunks_eq k n hk hn, numChunks_eq k (n - k) hk (by omega)]
    have h1 : n - 1 = k + (n - k - 1) := by omega
    rw [h1, Nat.add_div_left _ hk]

theorem numChunks_pos (k n : Nat) (hk : 0 < k) (hn : 0 < n) :
    0 < numChunks n k := by
  rw [numChunks_eq k n hk hn]; exact Nat.succ_pos _

theorem numChunks_eq_zero_iff (k n : Nat) (hk : 0 < k) :
    numChunks n k = 0 ↔ n = 0 := by
  constructor
  · intro h
    by_contra hne
    have := numChunks_pos k n hk (by omega)
    omega
  · intro h; subst h; exact numChunks_zero k

theorem chunkDocs_length (documents : List Doc) (k i : Nat) :
    (chunkDocs documents k i).length
      = min (i * k + k) documents.length - i * k := by
  unfold chunkDocs pySlice
  rw [List.length_drop, List.length_take]
  omega

theorem chunkDocs_zero (documents : List Doc) (k : Nat) :
    chunkDocs documents k 0 = documents.take k := by
  unfold chunkDocs pySlice
  rw [Nat.zero_mul, Nat.zero_add, List.drop_zero]
  rw [List.take_eq_take]
  omega

theorem chunkDocs_shift (documents : List Doc) (k i : Nat)
    (hkn : k ≤ documents.length) :
    chunkDocs documents k (i + 1) = chunkDocs (documents.drop k) k i := by
  unfold chunkDocs pySlice
  rw [List.length_drop]
  rw [List.drop_take, List.drop_take, List.drop_drop]
  have h2 : (i + 1) * k = i * k + k := by ring
  rw [h2]
  have h1 : min (i * k + k + k) documents.length - (i * k + k)
      = min (i * k + k) (documents.length - k) - i * k := by omega
  rw [h1, Nat.add_comm k (i * k)]

theorem chunksOf_nil (k : Nat) : chunksOf [] k = [] := by
  unfold chunksOf
  simp [numChunks_zero]

theorem chunksOf_cons (documents : List Doc) (k : Nat) (hk : 0 < k)
    (hd : documents ≠ []) :
    chunksOf documents k = documents.take k :: chunksOf (documents.drop k) k := by
  have hn : 0 < documents.length := List.length_pos.mpr hd
  unfold chunksOf
  rw [List.length_drop, numChunks_succ k documents.length hk hn,
    List.range_succ_eq_map, List.map_cons, List.map_map]
  congr 1
  · exact chunkDocs_zero documents k
  · apply List.map_congr_left
    intro i hi
    have him : 0 < numChunks (documents.length - k) k :=
      Nat.pos_of_ne_zero (by
        intro h0
        rw [h0] at hi
        simp at hi)
    have hkn : k ≤ documents.length := by
      by_contra hgt
      have : documents.length - k = 0 := by omega
      rw [this, numChunks_zero] at him
      omega
    exact chunkDocs_shift documents k i hkn

theorem chunksOf_join (k : Nat) (hk : 0 < k) :
    ∀ documents : List Doc, (chunksOf documents k).flatten = documents := by
  have main : ∀ n (documents : List Doc), documents.length = n →
      (chunksOf documents k).flatten = documents := by
    intro n
    induction n using Nat.strong_induction_on with
    | _ n ih =>
      intro documents hlen
      rcases eq_or_ne documents [] with rfl | hd
      · rw [chunksOf_nil]; rfl
      · have hn : 0 < documents.length := List.length_pos.mpr hd
        rw [chunksOf_cons documents k hk hd]
        rw [List.flatten_cons]
        rw [ih (documents.drop k).length (by rw [List.length_drop]; omega)
          (documents.drop k) rfl]
        exact List.take_append_drop k documents

  exact fun documents => main documents.length documents rfl

theorem chunksOf_length (documents : List Doc) (k : Nat) :
    (chunksOf documents k).length = numChunks documents.length k := by
  unfold chunksOf
  rw [List.length_map, List.length_range]

theorem numChunks_le_iff (k n m : Nat) (hk : 0 < k) :
    numChunks n k ≤ m ↔ n ≤ m * k := by
  unfold numChunks
  rw [Nat.div_le_iff_le_mul_add_pred hk, Nat.mul_comm k m]
  omega

theorem chunkDocs_full_length (documents : List Doc) (k i : Nat) (hk : 0 < k)
    (hi : i + 1 < numChunks documents.length k) :
    (chunkDocs documents k i).length = k := by
  have hn : 0 < documents.length := by
    by_contra h0
    have : documents.length = 0 := by omega
    rw [this, numChunks_zero] at hi
    omega
  rw [chunkDocs_length]
  have hle : (i + 1) * k ≤ documents.length - 1 := by
    have hm := numChunks_eq k documents.length hk hn
    have hdm : (documents.length - 1) / k * k ≤ documents.length - 1 :=
      Nat.div_mul_le_self _ _
    have : i + 1 ≤ (documents.length - 1) / k := by omega
    calc (i + 1) * k ≤ (documents.length - 1) / k * k :=
          Nat.mul_le_mul_right k this
      _ ≤ documents.length - 1 := hdm
  have : i * k + k ≤ documents.length - 1 := by
    have : (i + 1) * k = i * k + k := by ring
    omega
  omega

theorem chunksOf_getLast? (documents : List Doc) (k : Nat) (hk : 0 < k)
    (hd : documents ≠ []) :
    (chunksOf documents k).getLast?
      = some (chunkDocs documents k (numChunks documents.length k - 1)) := by
  have hn : 0 < documents.length := List.length_pos.mpr hd
  have hm := numChunks_pos k documents.length hk hn
  unfold chunksOf
  rw [List.getLast?_eq_getElem?]
  rw [List.length_map, List.length_range]
  rw [List.getElem?_map]
  rw [List.getElem?_range (by omega)]
  rfl

theorem lastChunk_length (documents : List Doc) (k : Nat) (hk : 0 < k)
    (hd : documents ≠ []) :
    (chunkDocs documents k (numChunks documents.length k - 1)).length
      = documents.length - (numChunks documents.length k - 1) * k := by
  have hn : 0 < documents.length := List.length_pos.mpr hd
  rw [chunkDocs_length]
  have hub : documents.length ≤ numChunks documents.length k * k := by
    have := (numChunks_le_iff k documents.length (numChunks documents.length k) hk).mp
      (Nat.le_refl _)
    exact this
  have hm := numChunks_pos k documents.length hk hn
  have hmul : numChunks documents.length k * k
      = (numChunks documents.length k - 1) * k + k := by
    have h1 : numChunks documents.length k = (numChunks documents.length k - 1) + 1 := by
      omega
    calc numChunks documents.length k * k
        = ((numChunks documents.length k - 1) + 1) * k := by rw [← h1]
      _ = (numChunks documents.length k - 1) * k + k := by ring
  omega

/-- A fixed five-document input for witness instantiation. -/
def docsC1 : List Doc := [{}, {}, {}, {}, {}]

/-- C1: for every input document sequence and every positive
`docs_per_chunk`, the Splitter partitions the documents by strictly
sequential slicing into exactly ceiling(n / docs_per_chunk) chunks (the
chunk count satisfies the Galois characterization of ceiling division);
every chunk except possibly the last contains `docs_per_chunk` documents;
the last chunk contains the remainder left after the earlier full chunks;
and the concatenation of the chunks equals the input sequence, hence the
concatenation of the chunk document-id lists equals the input document-id
sequence — no document skipped or duplicated. -/
theorem c1_sequential_partition (documents : List Doc) (docs_per_chunk : Nat)
    (hk : 0 < docs_per_chunk) :
    (chunksOf documents docs_per_chunk).length
        = numChunks documents.length docs_per_chunk
    ∧ (∀ m, numChunks documents.length docs_per_chunk ≤ m ↔
        documents.length ≤ m * docs_per_chunk)
    ∧ (chunksOf documents docs_per_chunk).flatten = documents
    ∧ (∀ i, i + 1 < numChunks documents.length docs_per_chunk →
        (chunkDocs documents docs_per_chunk i).length = docs_per_chunk)
    ∧ (documents ≠ [] →
        ((chunksOf documents docs_per_chunk).getLast?).map List.length
          = some (documents.length
              - (numChunks documents.length docs_per_chunk - 1) * docs_per_chunk))
    ∧ ((chunksOf documents docs_per_chunk).map (List.map Doc.id)).flatten
        = documents.map Doc.id := by
  refine ⟨chunksOf_length documents docs_per_chunk,
    fun m => numChunks_le_iff docs_per_chunk documents.length m hk,
    chunksOf_join docs_per_chunk hk documents,
    fun i hi => chunkDocs_full_length documents docs_per_chunk i hk hi,
    fun hd => ?_, ?_⟩
  · rw [chunksOf_getLast? documents docs_per_chunk hk hd, Option.map_some']
    rw [lastChunk_length documents docs_per_chunk hk hd]
  · rw [← List.map_flatten, chunksOf_join docs_per_chunk hk documents]

/-- Witness for C1 at a concrete five-document input with chunk size 2. -/
theorem c1_sequential_partition_witness :
    0 < 2 ∧
    ((chunksOf docsC1 2).length = numChunks docsC1.length 2
    ∧ (∀ m, numChunks docsC1.length 2 ≤ m ↔ docsC1.length ≤ m * 2)
    ∧ (chunksOf docsC1 2).flatten = docsC1
    ∧ (∀ i, i + 1 < numChunks docsC1.length 2 →
        (chunkDocs docsC1 2 i).length = 2)
    ∧ (docsC1 ≠ [] →
        ((chunksOf docsC1 2).getLast?).map List.length
          = some (docsC1.length - (numChunks docsC1.length 2 - 1) * 2))
    ∧ ((chunksOf docsC1 2).map (List.map Doc.id)).flatten = docsC1.map Doc.id) :=
  ⟨by decide, c1_sequential_partition docsC1 2 (by decide)⟩

/-! Helper lemmas for the document summary (claim C2). -/

theorem pySplitWs_empty : pySplitWs "" = [] := rfl

theorem processDoc_document_summary (st : IndexState) (doc : Doc) :
    (processDoc st doc).document_summary
      = st.document_summary ++ [mkSummary doc] := rfl

theorem foldl_processDoc_summary :
    ∀ (documents : List Doc) (st : IndexState),
      (documents.foldl processDoc st).document_summary
        = st.document_summary ++ documents.map mkSummary := by
  intro documents
  induction documents with
  | nil => intro st; simp
  | cons d rest ih =>
      intro st
      rw [List.foldl_cons, ih, processDoc_document_summary, List.map_cons]
      simp

/-- Summary entry as the spec words it: `word_count` equals the stored
`metadata.word_count` when non-zero, else the whitespace-token count of
`content.main_text`; `chunk_count` equals the stored value when non-zero,
else the number of entries of `content.main_text_chunks`. -/
def specSummary (doc : Doc) : Summary :=
  { id := doc.id.getD "unknown", reference := doc.reference,
    hebrew_date := doc.metadata.hebrew_date,
    gregorian_date := doc.metadata.gregorian_date,
    opening_phrase := doc.metadata.opening_phrase,
    topics := doc.metadata.topics, key_concepts := doc.metadata.key_concepts,
    word_count :=
      if doc.metadata.word_count ≠ 0 then doc.metadata.word_count
      else (pySplitWs doc.content.main_text).length,
    chunk_count :=
      if doc.metadata.chunk_count ≠ 0 then doc.metadata.chunk_count
      else doc.content.main_text_chunks.length }

theorem mkSummary_eq_specSummary (doc : Doc) : mkSummary doc = specSummary doc := by
  by_cases hwc : doc.metadata.word_count = 0 <;>
    by_cases hmt : doc.content.main_text = "" <;>
      by_cases hcc : doc.metadata.chunk_count = 0 <;>
        simp [mkSummary, specSummary, pyTruthy, hwc, hmt, hcc, pySplitWs_empty]

/-- C2: the Indexer's `document_summary` has exactly one entry per input
document, in input order, whatever facet fields are present, and each
entry's `word_count`/`chunk_count` equal the stored metadata value when
non-zero, else the per-document derived fallback (whitespace-token count
of `main_text`, respectively length of `main_text_chunks`). -/
theorem c2_document_summary (documents : List Doc) :
    (buildIndexState documents).document_summary = documents.map specSummary := by
  unfold buildIndexState
  rw [foldl_processDoc_summary documents {}]
  simp only [List.nil_append]
  exact List.map_congr_left (fun d _ => mkSummary_eq_specSummary d)

/-- C6: glossary parsing of the concrete round-trip example yields exactly
the two expected entries, and any candidate entry containing no `:` is
skipped without affecting its sibling entries. -/
theorem c6_glossary_parsing :
    parseGlossary "Aleph (Alef): first letter; Bet (Vet): second letter"
      = [⟨"Aleph", "Alef", "first letter"⟩, ⟨"Bet", "Vet", "second letter"⟩]
    ∧ (∀ (pre post : List String) (e : String), pyContains e ':' = false →
        (pre ++ e :: post).filterMap parseGlossEntry
          = (pre ++ post).filterMap parseGlossEntry) := by
  constructor
  · decide
  · intro pre post e he
    have hnone : parseGlossEntry e = none := by
      unfold parseGlossEntry
      rw [he]
      rfl
    rw [List.filterMap_append, List.filterMap_append, List.filterMap_cons, hnone]

/-- Witness for C6: a colon-free entry between the two example entries is
dropped without affecting them. -/
theorem c6_glossary_parsing_witness :
    pyContains "no colon here" ':' = false ∧
    (["Aleph (Alef): first letter"] ++ "no colon here" :: ["Bet (Vet): second letter"]).filterMap parseGlossEntry
      = (["Aleph (Alef): first letter"] ++ ["Bet (Vet): second letter"]).filterMap parseGlossEntry :=
  ⟨by decide, c6_glossary_parsing.2 _ _ _ (by decide)⟩

/-- C7: the glossary keyword registrations of one parsed entry are exactly
the ones the spec describes: a pair `(k, r)` is registered iff `k` is the
lowered, trailing-punctuation-stripped form of one of the first three
whitespace tokens of the English definition whose raw length exceeds 3 and
whose normalized form is not a stop word, and `r` points back to the
document and the definition context. -/
theorem c7_keyword_registration (doc_id hebrew_term english_part hebrew_date : String)
    (k : String) (r : GlossRef) :
    (k, r) ∈ keywordRegs doc_id hebrew_term english_part hebrew_date ↔
      ((∃ w ∈ (pySplitWs english_part).take 3,
          pyLen w > 3 ∧ pyRstrip (pyLower w) ['.', ',', ';', ':'] ∉ stopWords
          ∧ k = pyRstrip (pyLower w) ['.', ',', ';', ':'])
        ∧ r = GlossRef.byKeyword doc_id hebrew_term english_part hebrew_date) := by
  unfold keywordRegs
  by_cases he : pyTruthy english_part
  · rw [if_pos he, List.mem_filterMap]
    constructor
    · rintro ⟨w, hw, hsome⟩
      by_cases h1 : pyLen w > 3
      · rw [if_pos h1] at hsome
        by_cases h2 : pyRstrip (pyLower w) ['.', ',', ';', ':'] ∉ stopWords
        · rw [if_pos h2, Option.some_inj] at hsome
          obtain ⟨hk, hr⟩ := Prod.mk.injEq _ _ _ _ ▸ hsome
          exact ⟨⟨w, hw, h1, h2, hk.symm⟩, hr.symm⟩
        · rw [if_neg h2] at hsome
          exact absurd hsome (by simp)
      · rw [if_neg h1] at hsome
        exact absurd hsome (by simp)
    · rintro ⟨⟨w, hw, h1, h2, rfl⟩, rfl⟩
      exact ⟨w, hw, by rw [if_pos h1, if_pos h2]⟩
  · have h0 : english_part = "" := by
      by_contra hne
      exact he (by simpa [pyTruthy] using hne)
    subst h0
    rw [if_neg he]
    simp [pySplitWs_empty]

/-! Helper lemmas for the run-outcome models (claims C4 and C5). -/

theorem except_bind_ok (a : α) (f : α → Except ε β) :
    (Except.ok a >>= f) = f a := rfl

theorem except_bind_error (e : ε) (f : α → Except ε β) :
    ((Except.error e : Except ε α) >>= f) = Except.error e := rfl

theorem writeDocFiles_ok (l : List Doc) :
    exceptIsOk (writeDocFiles l) = l.all (fun d => d.id.isSome) := by
  induction l with
  | nil => rfl
  | cons d rest ih =>
      unfold writeDocFiles
      cases hid : d.id with
      | none => simp [List.all_cons, hid, exceptIsOk]
      | some i =>
          rw [List.all_cons, hid, Option.isSome_some, Bool.true_and, ← ih]
          cases hrest : writeDocFiles rest with
          | ok files => rfl
          | error e => rfl

theorem splitter_fold_ok (documents : List Doc) (k : Nat) :
    ∀ (l : List Nat) (st : MasterIndex × List String),
      exceptIsOk (l.foldlM (splitterChunkStep documents k) st)
        = l.all (fun i => (chunkDocs documents k i).all (fun d => d.id.isSome)) := by
  intro l
  induction l with
  | nil => intro st; rfl
  | cons i rest ih =>
      intro st
      rw [List.foldlM_cons, List.all_cons, ← writeDocFiles_ok]
      show exceptIsOk (splitterChunkStep documents k st i >>= _) = _
      unfold splitterChunkStep
      cases hw : writeDocFiles (chunkDocs documents k i) with
      | ok files => exact ih (processChunkMaster documents k st.1 i, st.2 ++ files)
      | error e => rfl

/-- C5 counterexample: a document whose only defect is a missing `id`
field kills the Splitter run (the filename sanitization calls
`None.replace`), so this per-document defect is fatal, contradicting the
claim that such defects are always recovered locally. -/
theorem c5_counterexample :
    exceptIsOk (split_maamarim_file [{}] 10) = false ∧ ({} : Doc).id = none := by
  exact ⟨by decide, rfl⟩

/-- C5 (amended): per-document data defects are recovered via defaulting
or silent skip with one exception.  The Indexer tolerates them all: it
still emits one summary entry per document whatever fields are missing.
The Splitter run succeeds exactly when every document carries an `id`
field: a missing document id — and only that defect — is fatal to the
Splitter (at the per-document filename derivation). -/
theorem c5_defect_recovery (documents : List Doc) (docs_per_chunk : Nat)
    (hk : 0 < docs_per_chunk) :
    (buildIndexState documents).document_summary.length = documents.length
    ∧ (exceptIsOk (split_maamarim_file documents docs_per_chunk) = true ↔
        ∀ d ∈ documents, d.id.isSome) := by
  constructor
  · unfold buildIndexState
    rw [foldl_processDoc_summary]
    simp
  · unfold split_maamarim_file
    rw [splitter_fold_ok]
    rw [List.all_eq_true]
    constructor
    · intro h d hd
      have hj := chunksOf_join docs_per_chunk hk documents
      rw [← hj, List.mem_flatten] at hd
      obtain ⟨ch, hch, hdch⟩ := hd
      unfold chunksOf at hch
      rw [List.mem_map] at hch
      obtain ⟨i, hi, rfl⟩ := hch
      have := h i hi
      rw [List.all_eq_true] at this
      exact this d hdch
    · intro h i hi
      rw [List.all_eq_true]
      intro d hd
      apply h
      have hj := chunksOf_join docs_per_chunk hk documents
      rw [← hj, List.mem_flatten]
      refine ⟨chunkDocs documents docs_per_chunk i, ?_, hd⟩
      unfold chunksOf
      exact List.mem_map_of_mem _ hi

/-- A fixed three-document input (all ids present) for the C5 witness. -/
def docsC5 : List Doc :=
  [{ id := some "a" }, { id := some "b/c" }, { id := some "d" }]

/-- Witness for the amended C5 at a concrete input. -/
theorem c5_defect_recovery_witness :
    0 < 2 ∧
    ((buildIndexState docsC5).document_summary.length = docsC5.length
    ∧ (exceptIsOk (split_maamarim_file docsC5 2) = true ↔
        ∀ d ∈ docsC5, d.id.isSome)) :=
  ⟨by decide, c5_defect_recovery docsC5 2 (by decide)⟩

/-- C4 counterexample: on an input whose top level lacks the
`collection_metadata` key, the Indexer fully builds and writes the JSON
search index, then dies on the `data['collection_metadata']` subscript
while the quick-reference report is being written: the run terminates with
one complete output and one partial output, not the all-or-nothing
behavior the claim states.  The aborted outcome carries the fully built
index and the non-empty prefix of report writes already performed. -/
theorem c4_counterexample :
    (create_search_indexes { documents := [], collection_metadata := none }).isCompleted
      = false
    ∧ create_search_indexes { documents := [], collection_metadata := none }
      = IndexerOutcome.abortedDuringReport (buildIndexState [])
          (quickRefHeader (buildIndexState []))
    ∧ (quickRefHeader (buildIndexState [])).length = 5 := by
  refine ⟨by decide, by decide, by decide⟩

/-- C4 (amended): once the input has parsed, the Indexer completes both
output files exactly when the top-level `collection_metadata` key is
present; in every run — completed or aborted — the JSON search index is
fully built and written before the report is attempted, so an absent key
yields a run with the index written and the report only partially
written. -/
theorem c4_output_atomicity (data : InputData) :
    ((create_search_indexes data).isCompleted = data.collection_metadata.isSome)
    ∧ (create_search_indexes data).index = buildIndexState data.documents := by
  unfold create_search_indexes quickRefWrites
  cases h : data.collection_metadata with
  | none => exact ⟨rfl, rfl⟩
  | some cm => exact ⟨rfl, rfl⟩

/-! Helper lemmas for the master-index dedup invariant (claim C3). -/

/-- Invariant of one facet map of the master index while chunk `c` is the
largest chunk number processed so far: every value list is strictly
increasing and bounded by `c`. -/
def GoodMap (c : Nat) (m : List (String × List Nat)) : Prop :=
  ∀ p ∈ m, List.Pairwise (· < ·) p.2 ∧ ∀ x ∈ p.2, x ≤ c

theorem goodMap_mono {c c' : Nat} {m : List (String × List Nat)}
    (hcc : c ≤ c') (hg : GoodMap c m) : GoodMap c' m :=
  fun p hp => ⟨(hg p hp).1, fun x hx => le_trans ((hg p hp).2 x hx) hcc⟩

theorem appendChunk_good (cs : List Nat) (c : Nat)
    (hp : List.Pairwise (· < ·) cs) (hb : ∀ x ∈ cs, x ≤ c) :
    List.Pairwise (· < ·) (if c ∈ cs then cs else cs ++ [c])
    ∧ ∀ x ∈ (if c ∈ cs then cs else cs ++ [c]), x ≤ c := by
  by_cases hc : c ∈ cs
  · rw [if_pos hc]
    exact ⟨hp, hb⟩
  · rw [if_neg hc]
    constructor
    · rw [List.pairwise_append]
      refine ⟨hp, List.pairwise_singleton _ _, ?_⟩
      intro a ha b hb'
      simp only [List.mem_singleton] at hb'
      subst hb'
      exact lt_of_le_of_ne (hb a ha) (fun h => hc (h ▸ ha))
    · intro x hx
      rcases List.mem_append.mp hx with h | h
      · exact hb x h
      · simp only [List.mem_singleton] at h
        exact Nat.le_of_eq h

theorem goodMap_addChunkIfAbsent (c : Nat) (k : String) :
    ∀ m, GoodMap c m → GoodMap c (addChunkIfAbsent m k c) := by
  intro m
  induction m with
  | nil =>
      intro _ p hp
      simp only [addChunkIfAbsent, List.mem_singleton] at hp
      subst hp
      refine ⟨List.pairwise_singleton _ _, ?_⟩
      intro x hx
      simp only [List.mem_singleton] at hx
      exact Nat.le_of_eq hx
  | cons q rest ih =>
      intro hg
      obtain ⟨k', cs⟩ := q
      have hq := hg (k', cs) (List.mem_cons_self _ _)
      have hrest : GoodMap c rest := fun p hp => hg p (List.mem_cons_of_mem _ hp)
      unfold addChunkIfAbsent
      by_cases hk : k' = k
      · rw [if_pos hk]
        intro p hp
        rcases List.mem_cons.mp hp with rfl | hp'
        · exact appendChunk_good cs c hq.1 hq.2
        · exact hrest p hp'
      · rw [if_neg hk]
        intro p hp
        rcases List.mem_cons.mp hp with rfl | hp'
        · exact hq
        · exact ih hrest p hp'

/-- Generic invariant preservation along a left fold. -/
theorem foldlPreserves {σ α : Type _} (Inv : σ → Prop) (f : σ → α → σ)
    (hf : ∀ s a, Inv s → Inv (f s a)) :
    ∀ (l : List α) (s : σ), Inv s → Inv (l.foldl f s) := by
  intro l
  induction l with
  | nil => intro s hs; exact hs
  | cons a rest ih => intro s hs; exact ih _ (hf s a hs)

theorem goodMap_ite (c : Nat) (b : Prop) [Decidable b] (k : String)
    (m : List (String × List Nat)) (hg : GoodMap c m) :
    GoodMap c (if b then addChunkIfAbsent m k c else m) := by
  by_cases hb : b
  · rw [if_pos hb]; exact goodMap_addChunkIfAbsent c k m hg
  · rw [if_neg hb]; exact hg

theorem splitterGlossUpdate_good (c : Nat) :
    ∀ (m : List (String × List Nat)) (entry : String),
      GoodMap c m → GoodMap c (splitterGlossUpdate c m entry) := by
  intro m entry hg
  unfold splitterGlossUpdate
  by_cases h1 : pyContains entry ':'
  · rw [if_pos h1]
    exact goodMap_ite c _ _ _ (goodMap_ite c _ _ _ hg)
  · rw [if_neg h1]
    exact hg

/-- Invariant on all five facet maps of the master index. -/
def AllGood (c : Nat) (st : MasterIndex) : Prop :=
  GoodMap c st.topic_to_chunks ∧ GoodMap c st.concept_to_chunks
  ∧ GoodMap c st.date_to_chunks ∧ GoodMap c st.opening_phrase_to_chunks
  ∧ GoodMap c st.glossary_term_to_chunks

theorem allGood_mono {c c' : Nat} {st : MasterIndex} (hcc : c ≤ c')
    (hg : AllGood c st) : AllGood c' st :=
  ⟨goodMap_mono hcc hg.1, goodMap_mono hcc hg.2.1, goodMap_mono hcc hg.2.2.1,
   goodMap_mono hcc hg.2.2.2.1, goodMap_mono hcc hg.2.2.2.2⟩

theorem allGood_processDocMaster (c : Nat) (st : MasterIndex) (doc : Doc)
    (hg : AllGood c st) : AllGood c (processDocMaster c st doc) := by
  obtain ⟨h1, h2, h3, h4, h5⟩ := hg
  refine ⟨?_, ?_, ?_, ?_, ?_⟩
  · exact foldlPreserves (GoodMap c) _
      (fun s a hs => goodMap_addChunkIfAbsent c a s hs) doc.metadata.topics
      st.topic_to_chunks h1
  · exact foldlPreserves (GoodMap c) _
      (fun s a hs => goodMap_addChunkIfAbsent c a s hs) doc.metadata.key_concepts
      st.concept_to_chunks h2
  · exact goodMap_ite c _ _ _ (goodMap_ite c _ _ _ h3)
  · exact goodMap_ite c _ _ _ h4
  · by_cases hgl : pyTruthy doc.content.glossary ∧ pyTruthy (pyStrip doc.content.glossary)
    · show GoodMap c (if _ then _ else _)
      rw [if_pos hgl]
      exact foldlPreserves (GoodMap c) _
        (fun s a hs => splitterGlossUpdate_good c s a hs)
        (glossaryCandidates doc.content.glossary) st.glossary_term_to_chunks h5
    · show GoodMap c (if _ then _ else _)
      rw [if_neg hgl]
      exact h5

theorem allGood_processChunkMaster (documents : List Doc) (k : Nat)
    (i : Nat) (st : MasterIndex) (hg : AllGood i st) :
    AllGood (i + 1) (processChunkMaster documents k st i) := by
  unfold processChunkMaster
  refine foldlPreserves (AllGood (i + 1)) _
    (fun s d hs => allGood_processDocMaster (i + 1) s d hs) _ _ ?_
  exact allGood_mono (Nat.le_succ i) hg

theorem allGood_range_fold (documents : List Doc) (k : Nat) :
    ∀ m : Nat, AllGood m ((List.range m).foldl
      (processChunkMaster documents k) ({} : MasterIndex)) := by
  intro m
  induction m with
  | zero =>
      refine ⟨?_, ?_, ?_, ?_, ?_⟩ <;> intro p hp <;> exact absurd hp (List.not_mem_nil p)
  | succ m ih =>
      rw [List.range_succ, List.foldl_append, List.foldl_cons, List.foldl_nil]
      exact allGood_processChunkMaster documents k m _ ih

theorem allGood_buildMasterIndex (documents : List Doc) (k : Nat) :
    AllGood (numChunks documents.length k) (buildMasterIndex documents k) :=
  allGood_range_fold documents k (numChunks documents.length k)

/-- A fixed input for C3's dedup scenario: one topic occurring in three
documents that all lie in the same chunk. -/
def docsC3 : List Doc :=
  [{ id := some "a", metadata := { topics := ["T"] } },
   { id := some "b", metadata := { topics := ["T"] } },
   { id := some "c", metadata := { topics := ["T"] } }]

/-- C3: in the Splitter's master index every facet value list
(`topic_to_chunks`, `concept_to_chunks`, `date_to_chunks`,
`opening_phrase_to_chunks`, `glossary_term_to_chunks`) is strictly
increasing in chunk number — chunks are processed in ascending order and a
chunk number is appended only when not already present, so each list is
duplicate-free and ordered by the first occurrence of the chunk — and in
the concrete scenario of a topic occurring in three documents of one chunk
the topic's list is exactly `[1]`, of length 1. -/
theorem c3_master_index_dedup :
    (∀ (documents : List Doc) (docs_per_chunk : Nat) (p : String × List Nat),
       (p ∈ (buildMasterIndex documents docs_per_chunk).topic_to_chunks
        ∨ p ∈ (buildMasterIndex documents docs_per_chunk).concept_to_chunks
        ∨ p ∈ (buildMasterIndex documents docs_per_chunk).date_to_chunks
        ∨ p ∈ (buildMasterIndex documents docs_per_chunk).opening_phrase_to_chunks
        ∨ p ∈ (buildMasterIndex documents docs_per_chunk).glossary_term_to_chunks) →
        List.Pairwise (· < ·) p.2 ∧ p.2.Nodup)
    ∧ (buildMasterIndex docsC3 10).topic_to_chunks = [("T", [1])] := by
  constructor
  · intro documents k p hp
    have hall := allGood_buildMasterIndex documents k
    obtain ⟨h1, h2, h3, h4, h5⟩ := hall
    have hps : List.Pairwise (· < ·) p.2 := by
      rcases hp with h | h | h | h | h
      · exact (h1 p h).1
      · exact (h2 p h).1
      · exact (h3 p h).1
      · exact (h4 p h).1
      · exact (h5 p h).1
    exact ⟨hps, hps.imp (fun h => Nat.ne_of_lt h)⟩
  · decide

/-- Witness for C3 at the concrete dedup scenario. -/
theorem c3_master_index_dedup_witness :
    (("T", ([1] : List Nat)) ∈ (buildMasterIndex docsC3 10).topic_to_chunks
      ∨ ("T", ([1] : List Nat)) ∈ (buildMasterIndex docsC3 10).concept_to_chunks
      ∨ ("T", ([1] : List Nat)) ∈ (buildMasterIndex docsC3 10).date_to_chunks
      ∨ ("T", ([1] : List Nat)) ∈ (buildMasterIndex docsC3 10).opening_phrase_to_chunks
      ∨ ("T", ([1] : List Nat)) ∈ (buildMasterIndex docsC3 10).glossary_term_to_chunks)
    ∧ (List.Pairwise (· < ·) ("T", ([1] : List Nat)).2
        ∧ ("T", ([1] : List Nat)).2.Nodup) :=
  ⟨Or.inl (by decide),
   c3_master_index_dedup.1 docsC3 10 ("T", [1]) (Or.inl (by decide))⟩

/-! Helper lemmas for the topic-to-representative-concept mapping (C8). -/

theorem dictGet_dictSet_self [DecidableEq κ] (k : κ) (v : β) :
    ∀ m : List (κ × β), dictGet (dictSet m k v) k = some v := by
  intro m
  induction m with
  | nil => simp [dictSet, dictGet]
  | cons q rest ih =>
      obtain ⟨k', v'⟩ := q
      unfold dictSet
      by_cases hk : k' = k
      · rw [if_pos hk]
        unfold dictGet
        rw [if_pos hk]
      · rw [if_neg hk]
        unfold dictGet
        rw [if_neg hk]
        exact ih

theorem dictGet_dictSet_ne [DecidableEq κ] (k t : κ) (v : β) (hne : k ≠ t) :
    ∀ m : List (κ × β), dictGet (dictSet m k v) t = dictGet m t := by
  intro m
  induction m with
  | nil =>
      unfold dictSet dictGet
      rw [if_neg hne]
      rfl
  | cons q rest ih =>
      obtain ⟨k', v'⟩ := q
      unfold dictSet
      by_cases hk : k' = k
      · rw [if_pos hk]
        unfold dictGet
        subst hk
        rw [if_neg hne, if_neg hne]
      · rw [if_neg hk]
        unfold dictGet
        by_cases hkt : k' = t
        · rw [if_pos hkt, if_pos hkt]
        · rw [if_neg hkt, if_neg hkt]
          exact ih

/-- First-match orElse on options (Python `dict`-style precedence of the
earlier insertion). -/
def optOr (a b : Option α) : Option α :=
  match a with
  | some v => some v
  | none => b

theorem optOr_none (b : Option α) : optOr none b = b := rfl

theorem optOr_some (v : α) (b : Option α) : optOr (some v) b = some v := rfl

theorem optOr_none_right (a : Option α) : optOr a none = a := by
  cases a <;> rfl

theorem optOr_assoc (a b c : Option α) :
    optOr (optOr a b) c = optOr a (optOr b c) := by
  cases a <;> rfl

/-- Spec-side scan of one document's enumerated topics starting at
position `j`: the concept at the matching positional index of the first
occurrence of `t` whose index lies inside `doc_concepts`. -/
def firstAlignedFrom (doc_concepts : List String) (t : String) :
    Nat → List String → Option String
  | _, [] => none
  | j, x :: xs =>
      if x = t ∧ j < doc_concepts.length then some (doc_concepts.getD j "")
      else firstAlignedFrom doc_concepts t (j + 1) xs

/-- Spec-side per-document first aligned concept for topic `t`. -/
def firstAlignedInDoc (doc_topics doc_concepts : List String) (t : String) :
    Option String :=
  firstAlignedFrom doc_concepts t 0 doc_topics

/-- Spec-side first-seen representative concept of topic `t` across the
raw document sequence: the concept aligned with the first encounter of `t`
that has an aligned concept at all. -/
def firstAlignedConcept : List Doc → String → Option String
  | [], _ => none
  | d :: rest, t =>
      optOr (firstAlignedInDoc d.metadata.topics d.metadata.key_concepts t)
        (firstAlignedConcept rest t)

theorem firstAlignedFrom_nil (doc_concepts : List String) (t : String) (j : Nat) :
    firstAlignedFrom doc_concepts t j [] = none := rfl

theorem firstAlignedFrom_cons (doc_concepts : List String) (t x : String)
    (j : Nat) (xs : List String) :
    firstAlignedFrom doc_concepts t j (x :: xs)
      = if x = t ∧ j < doc_concepts.length then some (doc_concepts.getD j "")
        else firstAlignedFrom doc_concepts t (j + 1) xs := rfl

theorem addTopicConcepts_from (doc_concepts : List String) (t : String) :
    ∀ (doc_topics : List String) (j : Nat) (tc : List (String × String)),
      dictGet ((List.enumFrom j doc_topics).foldl (fun m p =>
          if p.1 < doc_concepts.length ∧ dictGet m p.2 = none then
            dictSet m p.2 (doc_concepts.getD p.1 "")
          else m) tc) t
        = optOr (dictGet tc t) (firstAlignedFrom doc_concepts t j doc_topics) := by
  intro doc_topics
  induction doc_topics with
  | nil =>
      intro j tc
      rw [List.enumFrom_nil, List.foldl_nil, firstAlignedFrom_nil, optOr_none_right]
  | cons x xs ih =>
      intro j tc
      rw [List.enumFrom_cons, List.foldl_cons, ih (j + 1), firstAlignedFrom_cons]
      show optOr (dictGet (if j < doc_concepts.length ∧ dictGet tc x = none then
          dictSet tc x (doc_concepts.getD j "") else tc) t) _ = _
      by_cases hx : x = t
      · subst hx
        by_cases hj : j < doc_concepts.length
        · by_cases htc : dictGet tc x = none
          · rw [if_pos ⟨hj, htc⟩, dictGet_dictSet_self, htc,
              if_pos (show x = x ∧ j < doc_concepts.length from ⟨rfl, hj⟩),
              optOr_some, optOr_none]
          · rw [if_neg (show ¬(j < doc_concepts.length ∧ dictGet tc x = none) from
                fun hc => htc hc.2),
              if_pos (show x = x ∧ j < doc_concepts.length from ⟨rfl, hj⟩)]
            obtain ⟨w, hw⟩ := Option.ne_none_iff_exists'.mp htc
            rw [hw, optOr_some, optOr_some]
        · rw [if_neg (show ¬(j < doc_concepts.length ∧ dictGet tc x = none) from
              fun hc => hj hc.1),
            if_neg (show ¬(x = x ∧ j < doc_concepts.length) from fun hc => hj hc.2)]
      · have hstep : dictGet (if j < doc_concepts.length ∧ dictGet tc x = none then
            dictSet tc x (doc_concepts.getD j "") else tc) t = dictGet tc t := by
          by_cases hcond : j < doc_concepts.length ∧ dictGet tc x = none
          · rw [if_pos hcond]
            exact dictGet_dictSet_ne x t _ hx tc
          · rw [if_neg hcond]
        rw [hstep,
          if_neg (show ¬(x = t ∧ j < doc_concepts.length) from fun hc => hx hc.1)]

theorem addTopicConcepts_lookup (tc : List (String × String))
    (doc_topics doc_concepts : List String) (t : String) :
    dictGet (addTopicConcepts tc doc_topics doc_concepts) t
      = optOr (dictGet tc t) (firstAlignedInDoc doc_topics doc_concepts t) := by
  unfold addTopicConcepts firstAlignedInDoc
  rw [show doc_topics.enum = List.enumFrom 0 doc_topics from rfl]
  exact addTopicConcepts_from doc_concepts t doc_topics 0 tc

theorem buildTopicToConcept_from (t : String) :
    ∀ (documents : List Doc) (tc : List (String × String)),
      dictGet (documents.foldl (fun m doc =>
          addTopicConcepts m doc.metadata.topics doc.metadata.key_concepts) tc) t
        = optOr (dictGet tc t) (firstAlignedConcept documents t) := by
  intro documents
  induction documents with
  | nil =>
      intro tc
      unfold firstAlignedConcept
      rw [List.foldl_nil, optOr_none_right]
  | cons d rest ih =>
      intro tc
      rw [List.foldl_cons, ih, addTopicConcepts_lookup, optOr_assoc]
      rfl

/-- C8: the topic-to-representative-concept mapping is built by its own
pass over the raw documents (its input is the document list, not the
aggregated topic index), and its lookup is exactly the spec's first-seen
semantics: the recorded concept of a topic is the `key_concepts` entry at
the matching positional index of the first encounter of that topic that
has an aligned concept, realized by the code's guarded insert (insert only
if key absent); consequently an entry, once present, is never overwritten
when further documents are processed. -/
theorem c8_topic_to_concept (documents : List Doc) (t : String) :
    dictGet (buildTopicToConcept documents) t = firstAlignedConcept documents t
    ∧ (∀ (more : List Doc) (v : String),
        dictGet (buildTopicToConcept documents) t = some v →
        dictGet (buildTopicToConcept (documents ++ more)) t = some v) := by
  constructor
  · unfold buildTopicToConcept
    rw [buildTopicToConcept_from t documents []]
    rfl
  · intro more v hv
    unfold buildTopicToConcept at hv ⊢
    rw [List.foldl_append, buildTopicToConcept_from t more _, hv, optOr_some]

/-- Witness for C8 at a concrete input: the first document records its
aligned concept and a later document does not overwrite it. -/
theorem c8_topic_to_concept_witness :
    dictGet (buildTopicToConcept
        [{ id := some "a", metadata := { topics := ["T"], key_concepts := ["C1"] } }]) "T"
      = firstAlignedConcept
        [{ id := some "a", metadata := { topics := ["T"], key_concepts := ["C1"] } }] "T"
    ∧ dictGet (buildTopicToConcept
        ([{ id := some "a", metadata := { topics := ["T"], key_concepts := ["C1"] } }]
          ++ [{ id := some "b", metadata := { topics := ["T"], key_concepts := ["C2"] } }])) "T"
      = some "C1" :=
  ⟨(c8_topic_to_concept _ "T").1,
   (c8_topic_to_concept
      [{ id := some "a", metadata := { topics := ["T"], key_concepts := ["C1"] } }] "T").2
     [{ id := some "b", metadata := { topics := ["T"], key_concepts := ["C2"] } }]
     "C1" (by decide)⟩

/-! Helper lemmas for the topic/concept filtering divergence (claim C10). -/

theorem listUpsert_keys_prop {β : Type _} (P : String → Prop) (k : String) (v : β)
    (hk : P k) :
    ∀ m : List (String × List β), (∀ p ∈ m, P p.1) →
      ∀ p ∈ listUpsert m k v, P p.1 := by
  intro m
  induction m with
  | nil =>
      intro _ p hp
      simp only [listUpsert, List.mem_singleton] at hp
      subst hp
      exact hk
  | cons q rest ih =>
      intro hm p hp
      obtain ⟨k', vs⟩ := q
      unfold listUpsert at hp
      by_cases hkk : k' = k
      · rw [if_pos hkk] at hp
        rcases List.mem_cons.mp hp with rfl | hp'
        · exact hm (k', vs) (List.mem_cons_self _ _)
        · exact hm p (List.mem_cons_of_mem _ hp')
      · rw [if_neg hkk] at hp
        rcases List.mem_cons.mp hp with rfl | hp'
        · exact hm (k', vs) (List.mem_cons_self _ _)
        · exact ih (fun p hp => hm p (List.mem_cons_of_mem _ hp)) p hp'

/-- Invariant of the Indexer's facet aggregation: every key of the topic
index and of the concept index has a non-empty strip (the code guards both
inserts with `if topic.strip():` / `if concept.strip():`). -/
def StrippedKeys (st : IndexState) : Prop :=
  (∀ p ∈ st.topic_index, pyStrip p.1 ≠ "")
  ∧ (∀ p ∈ st.concept_index, pyStrip p.1 ≠ "")

theorem processDoc_strippedKeys (st : IndexState) (doc : Doc)
    (h : StrippedKeys st) : StrippedKeys (processDoc st doc) := by
  obtain ⟨h1, h2⟩ := h
  constructor
  · have hti : (processDoc st doc).topic_index
        = doc.metadata.topics.foldl (fun ti topic =>
            if pyTruthy (pyStrip topic) then
              listUpsert ti topic
                ⟨doc.id.getD "unknown", doc.reference, doc.metadata.hebrew_date,
                  doc.metadata.opening_phrase⟩
            else ti) st.topic_index := rfl
    rw [hti]
    refine foldlPreserves
      (fun m : List (String × List TopicRef) => ∀ p ∈ m, pyStrip p.1 ≠ "") _ ?_ _ _ h1
    intro s a hs
    by_cases ha : pyTruthy (pyStrip a)
    · rw [if_pos ha]
      exact listUpsert_keys_prop (fun s => pyStrip s ≠ "") a _ (by simpa [pyTruthy] using ha) s hs
    · rw [if_neg ha]
      exact hs
  · have hci : (processDoc st doc).concept_index
        = doc.metadata.key_concepts.foldl (fun ci concept =>
            if pyTruthy (pyStrip concept) then
              listUpsert ci concept
                ⟨doc.id.getD "unknown", doc.reference, doc.metadata.topics⟩
            else ci) st.concept_index := rfl
    rw [hci]
    refine foldlPreserves
      (fun m : List (String × List ConceptRef) => ∀ p ∈ m, pyStrip p.1 ≠ "") _ ?_ _ _ h2
    intro s a hs
    by_cases ha : pyTruthy (pyStrip a)
    · rw [if_pos ha]
      exact listUpsert_keys_prop (fun s => pyStrip s ≠ "") a _ (by simpa [pyTruthy] using ha) s hs
    · rw [if_neg ha]
      exact hs

theorem buildIndexState_strippedKeys (documents : List Doc) :
    StrippedKeys (buildIndexState documents) := by
  unfold buildIndexState
  refine foldlPreserves StrippedKeys processDoc
    (fun s d hs => processDoc_strippedKeys s d hs) documents {} ?_
  exact ⟨fun p hp => absurd hp (List.not_mem_nil p),
    fun p hp => absurd hp (List.not_mem_nil p)⟩

theorem addChunkIfAbsent_keys_self (k : String) (c : Nat) :
    ∀ m, k ∈ dictKeys (addChunkIfAbsent m k c) := by
  intro m
  induction m with
  | nil => simp [addChunkIfAbsent, dictKeys]
  | cons q rest ih =>
      obtain ⟨k', cs⟩ := q
      unfold addChunkIfAbsent
      by_cases hk : k' = k
      · rw [if_pos hk]
        subst hk
        simp [dictKeys]
      · rw [if_neg hk]
        simp only [dictKeys, List.map_cons, List.mem_cons]
        exact Or.inr ih

theorem addChunkIfAbsent_keys_mono (k k0 : String) (c : Nat) :
    ∀ m, k0 ∈ dictKeys m → k0 ∈ dictKeys (addChunkIfAbsent m k c) := by
  intro m
  induction m with
  | nil => intro h; exact absurd h (by simp [dictKeys])
  | cons q rest ih =>
      intro h
      obtain ⟨k', cs⟩ := q
      unfold addChunkIfAbsent
      simp only [dictKeys, List.map_cons, List.mem_cons] at h
      by_cases hk : k' = k
      · rw [if_pos hk]
        simp only [dictKeys, List.map_cons, List.mem_cons]
        exact h
      · rw [if_neg hk]
        simp only [dictKeys, List.map_cons, List.mem_cons]
        rcases h with h | h
        · exact Or.inl h
        · exact Or.inr (ih h)

theorem fold_addChunk_keys (c : Nat) :
    ∀ (l : List String) (m : List (String × List Nat)),
      (∀ t ∈ l, t ∈ dictKeys (l.foldl (fun mm t => addChunkIfAbsent mm t c) m))
      ∧ (∀ k0 ∈ dictKeys m,
          k0 ∈ dictKeys (l.foldl (fun mm t => addChunkIfAbsent mm t c) m)) := by
  intro l
  induction l with
  | nil =>
      intro m
      exact ⟨fun t ht => absurd ht (List.not_mem_nil t), fun k0 h => h⟩
  | cons t rest ih =>
      intro m
      rw [List.foldl_cons]
      constructor
      · intro t' ht'
        rcases List.mem_cons.mp ht' with rfl | h
        · exact (ih _).2 t' (addChunkIfAbsent_keys_self t' c m)
        · exact (ih _).1 t' h
      · intro k0 hk0
        exact (ih _).2 k0 (addChunkIfAbsent_keys_mono t k0 c m hk0)

theorem processDocMaster_topic_eq (c : Nat) (st : MasterIndex) (doc : Doc) :
    (processDocMaster c st doc).topic_to_chunks
      = doc.metadata.topics.foldl (fun m topic => addChunkIfAbsent m topic c)
          st.topic_to_chunks := rfl

theorem processDocMaster_concept_eq (c : Nat) (st : MasterIndex) (doc : Doc) :
    (processDocMaster c st doc).concept_to_chunks
      = doc.metadata.key_concepts.foldl (fun m concept => addChunkIfAbsent m concept c)
          st.concept_to_chunks := rfl

theorem docsFold_topic_mono (c : Nat) :
    ∀ (l : List Doc) (st : MasterIndex) (k0 : String),
      k0 ∈ dictKeys st.topic_to_chunks →
      k0 ∈ dictKeys ((l.foldl (processDocMaster c) st).topic_to_chunks) := by
  intro l
  induction l with
  | nil => intro st k0 h; exact h
  | cons d rest ih =>
      intro st k0 h
      rw [List.foldl_cons]
      apply ih
      rw [processDocMaster_topic_eq]
      exact (fold_addChunk_keys c d.metadata.topics st.topic_to_chunks).2 k0 h

theorem docsFold_concept_mono (c : Nat) :
    ∀ (l : List Doc) (st : MasterIndex) (k0 : String),
      k0 ∈ dictKeys st.concept_to_chunks →
      k0 ∈ dictKeys ((l.foldl (processDocMaster c) st).concept_to_chunks) := by
  intro l
  induction l with
  | nil => intro st k0 h; exact h
  | cons d rest ih =>
      intro st k0 h
      rw [List.foldl_cons]
      apply ih
      rw [processDocMaster_concept_eq]
      exact (fold_addChunk_keys c d.metadata.key_concepts st.concept_to_chunks).2 k0 h

theorem docsFold_topic_cover (c : Nat) :
    ∀ (l : List Doc) (st : MasterIndex) (d : Doc), d ∈ l →
      ∀ t ∈ d.metadata.topics,
        t ∈ dictKeys ((l.foldl (processDocMaster c) st).topic_to_chunks) := by
  intro l
  induction l with
  | nil => intro st d hd; exact absurd hd (List.not_mem_nil d)
  | cons d0 rest ih =>
      intro st d hd t ht
      rw [List.foldl_cons]
      rcases List.mem_cons.mp hd with rfl | hd'
      · apply docsFold_topic_mono c rest _
        rw [processDocMaster_topic_eq]
        exact (fold_addChunk_keys c d.metadata.topics st.topic_to_chunks).1 t ht
      · exact ih _ d hd' t ht

theorem docsFold_concept_cover (c : Nat) :
    ∀ (l : List Doc) (st : MasterIndex) (d : Doc), d ∈ l →
      ∀ cpt ∈ d.metadata.key_concepts,
        cpt ∈ dictKeys ((l.foldl (processDocMaster c) st).concept_to_chunks) := by
  intro l
  induction l with
  | nil => intro st d hd; exact absurd hd (List.not_mem_nil d)
  | cons d0 rest ih =>
      intro st d hd cpt hc
      rw [List.foldl_cons]
      rcases List.mem_cons.mp hd with rfl | hd'
      · apply docsFold_concept_mono c rest _
        rw [processDocMaster_concept_eq]
        exact (fold_addChunk_keys c d.metadata.key_concepts st.concept_to_chunks).1 cpt hc
      · exact ih _ d hd' cpt hc

theorem processChunkMaster_topic_mono (documents : List Doc) (k i : Nat)
    (st : MasterIndex) (k0 : String)
    (h : k0 ∈ dictKeys st.topic_to_chunks) :
    k0 ∈ dictKeys ((processChunkMaster documents k st i).topic_to_chunks) := by
  unfold processChunkMaster
  exact docsFold_topic_mono (i + 1) _ _ k0 h

theorem processChunkMaster_concept_mono (documents : List Doc) (k i : Nat)
    (st : MasterIndex) (k0 : String)
    (h : k0 ∈ dictKeys st.concept_to_chunks) :
    k0 ∈ dictKeys ((processChunkMaster documents k st i).concept_to_chunks) := by
  unfold processChunkMaster
  exact docsFold_concept_mono (i + 1) _ _ k0 h

/-- Generic establishment along a left fold: if some element of the list
establishes `Q` and every step preserves it, the fold's result satisfies
`Q`. -/
theorem foldl_establish {σ α : Type _} (Q : σ → Prop) (f : σ → α → σ) (a : α)
    (hest : ∀ s, Q (f s a)) (hpres : ∀ s b, Q s → Q (f s b)) :
    ∀ (l : List α) (s : σ), a ∈ l → Q (l.foldl f s) := by
  intro l
  induction l with
  | nil => intro s h; exact absurd h (List.not_mem_nil a)
  | cons b rest ih =>
      intro s h
      rw [List.foldl_cons]
      rcases List.mem_cons.mp h with rfl | h'
      · exact foldlPreserves Q f hpres rest _ (hest s)
      · exact ih _ h'

theorem buildMaster_topic_cover (documents : List Doc) (k : Nat) (hk : 0 < k)
    (d : Doc) (hd : d ∈ documents) (t : String) (ht : t ∈ d.metadata.topics) :
    t ∈ dictKeys (buildMasterIndex documents k).topic_to_chunks := by
  have hj := chunksOf_join k hk documents
  rw [← hj, List.mem_flatten] at hd
  obtain ⟨ch, hch, hdch⟩ := hd
  unfold chunksOf at hch
  rw [List.mem_map] at hch
  obtain ⟨i, hi, rfl⟩ := hch
  unfold buildMasterIndex
  refine foldl_establish (fun st => t ∈ dictKeys st.topic_to_chunks)
    (processChunkMaster documents k) i ?_ ?_ _ _ hi
  · intro s
    unfold processChunkMaster
    exact docsFold_topic_cover (i + 1) _ _ d hdch t ht
  · intro s b hq
    exact processChunkMaster_topic_mono documents k b s t hq

theorem buildMaster_concept_cover (documents : List Doc) (k : Nat) (hk : 0 < k)
    (d : Doc) (hd : d ∈ documents) (cpt : String)
    (hc : cpt ∈ d.metadata.key_concepts) :
    cpt ∈ dictKeys (buildMasterIndex documents k).concept_to_chunks := by
  have hj := chunksOf_join k hk documents
  rw [← hj, List.mem_flatten] at hd
  obtain ⟨ch, hch, hdch⟩ := hd
  unfold chunksOf at hch
  rw [List.mem_map] at hch
  obtain ⟨i, hi, rfl⟩ := hch
  unfold buildMasterIndex
  refine foldl_establish (fun st => cpt ∈ dictKeys st.concept_to_chunks)
    (processChunkMaster documents k) i ?_ ?_ _ _ hi
  · intro s
    unfold processChunkMaster
    exact docsFold_concept_cover (i + 1) _ _ d hdch cpt hc
  · intro s b hq
    exact processChunkMaster_concept_mono documents k b s cpt hq

/-- A fixed input for C10's concrete disagreement: one document whose only
topic is the whitespace-only string `" "`. -/
def docsC10 : List Doc := [{ id := some "a", metadata := { topics := [" "] } }]

/-- C10 (implicit): the Splitter's master index applies no non-emptiness
filter — every element of every document's `topics`/`key_concepts` lists,
including empty or whitespace-only strings, becomes a key of
`topic_to_chunks`/`concept_to_chunks` — whereas the Indexer skips
whitespace-only topic and concept values, so a whitespace-only string is
never a key of its `topic_index`/`concept_index`; the two artifacts thus
disagree on facet keys for the same input, concretely on a document whose
sole topic is `" "`. -/
theorem c10_whitespace_filter_divergence :
    (∀ (documents : List Doc) (docs_per_chunk : Nat), 0 < docs_per_chunk →
      ∀ d ∈ documents,
        (∀ t ∈ d.metadata.topics,
          t ∈ dictKeys (buildMasterIndex documents docs_per_chunk).topic_to_chunks)
        ∧ (∀ cpt ∈ d.metadata.key_concepts,
          cpt ∈ dictKeys (buildMasterIndex documents docs_per_chunk).concept_to_chunks))
    ∧ (∀ (documents : List Doc) (t : String), pyStrip t = "" →
        t ∉ dictKeys (buildIndexState documents).topic_index
        ∧ t ∉ dictKeys (buildIndexState documents).concept_index)
    ∧ (" " ∈ dictKeys (buildMasterIndex docsC10 1).topic_to_chunks
        ∧ " " ∉ dictKeys (buildIndexState docsC10).topic_index) := by
  refine ⟨?_, ?_, by decide, by decide⟩
  · intro documents k hk d hd
    exact ⟨fun t ht => buildMaster_topic_cover documents k hk d hd t ht,
      fun cpt hc => buildMaster_concept_cover documents k hk d hd cpt hc⟩
  · intro documents t ht
    have hs := buildIndexState_strippedKeys documents
    constructor
    · intro hmem
      unfold dictKeys at hmem
      rw [List.mem_map] at hmem
      obtain ⟨p, hp, hpt⟩ := hmem
      exact hs.1 p hp (hpt ▸ ht)
    · intro hmem
      unfold dictKeys at hmem
      rw [List.mem_map] at hmem
      obtain ⟨p, hp, hpt⟩ := hmem
      exact hs.2 p hp (hpt ▸ ht)

/-- Witness for C10 at the concrete whitespace-topic input. -/
theorem c10_whitespace_filter_divergence_witness :
    (0 < 1 ∧ ({ id := some "a", metadata := { topics := [" "] } } : Doc) ∈ docsC10
      ∧ " " ∈ ({ id := some "a", metadata := { topics := [" "] } } : Doc).metadata.topics
      ∧ pyStrip " " = "")
    ∧ " " ∈ dictKeys (buildMasterIndex docsC10 1).topic_to_chunks
    ∧ " " ∉ dictKeys (buildIndexState docsC10).topic_index :=
  ⟨⟨by decide, by decide, by decide, by decide⟩,
   (c10_whitespace_filter_divergence.1 docsC10 1 (by decide)
      { id := some "a", metadata := { topics := [" "] } } (by decide)).1 " " (by decide),
   (c10_whitespace_filter_divergence.2.1 docsC10 " " (by decide)).1⟩

/-! Helper lemmas for the report's topic ranking (claim C9). -/

theorem insertDescBy_perm {α : Type _} (key : α → Nat) (x : α) :
    ∀ l, List.Perm (insertDescBy key x l) (x :: l) := by
  intro l
  induction l with
  | nil => exact List.Perm.refl _
  | cons y ys ih =>
      unfold insertDescBy
      by_cases h : key x ≥ key y
      · rw [if_pos h]
      · rw [if_neg h]
        exact (List.Perm.cons y ih).trans (List.Perm.swap x y ys)

theorem stableSortDescBy_perm {α : Type _} (key : α → Nat) :
    ∀ l, List.Perm (stableSortDescBy key l) l := by
  intro l
  induction l with
  | nil => exact List.Perm.refl _
  | cons x xs ih =>
      unfold stableSortDescBy
      exact (insertDescBy_perm key x (stableSortDescBy key xs)).trans
        (List.Perm.cons x ih)

theorem insertDescBy_sorted {α : Type _} (key : α → Nat) (x : α) :
    ∀ l, List.Pairwise (fun a b => key b ≤ key a) l →
      List.Pairwise (fun a b => key b ≤ key a) (insertDescBy key x l) := by
  intro l
  induction l with
  | nil => intro _; exact List.pairwise_singleton _ _
  | cons y ys ih =>
      intro hp
      rw [List.pairwise_cons] at hp
      obtain ⟨hy, hys⟩ := hp
      unfold insertDescBy
      by_cases h : key x ≥ key y
      · rw [if_pos h]
        rw [List.pairwise_cons]
        constructor
        · intro b hb
          rcases List.mem_cons.mp hb with rfl | hb'
          · exact h
          · exact le_trans (hy b hb') h
        · rw [List.pairwise_cons]
          exact ⟨hy, hys⟩
      · rw [if_neg h]
        rw [List.pairwise_cons]
        constructor
        · intro b hb
          have hmem := (insertDescBy_perm key x ys).mem_iff.mp hb
          rcases List.mem_cons.mp hmem with rfl | hb'
          · exact le_of_not_ge h
          · exact hy b hb'
        · exact ih hys

theorem stableSortDescBy_sorted {α : Type _} (key : α → Nat) :
    ∀ l, List.Pairwise (fun a b => key b ≤ key a) (stableSortDescBy key l) := by
  intro l
  induction l with
  | nil => exact List.Pairwise.nil
  | cons x xs ih =>
      unfold stableSortDescBy
      exact insertDescBy_sorted key x _ ih

theorem insertDescBy_filter {α : Type _} (key : α → Nat) (x : α) (n : Nat) :
    ∀ l, (insertDescBy key x l).filter (fun a => key a == n)
      = if key x = n then x :: l.filter (fun a => key a == n)
        else l.filter (fun a => key a == n) := by
  intro l
  induction l with
  | nil =>
      unfold insertDescBy
      by_cases hn : key x = n <;> simp [List.filter_cons, hn]
  | cons y ys ih =>
      unfold insertDescBy
      by_cases h : key x ≥ key y
      · rw [if_pos h]
        by_cases hn : key x = n <;> by_cases hyn : key y = n <;>
          simp [List.filter_cons, hn, hyn]
      · rw [if_neg h]
        rw [List.filter_cons, ih]
        by_cases hn : key x = n
        · have hyn : ¬(key y = n) := by
            intro he
            exact h (le_of_eq (hn.trans he.symm).symm)
          simp [List.filter_cons, hn, hyn]
        · by_cases hyn : key y = n <;> simp [List.filter_cons, hn, hyn]

theorem stableSortDescBy_filter {α : Type _} (key : α → Nat) (n : Nat) :
    ∀ l, (stableSortDescBy key l).filter (fun a => key a == n)
      = l.filter (fun a => key a == n) := by
  intro l
  induction l with
  | nil => rfl
  | cons x xs ih =>
      unfold stableSortDescBy
      rw [insertDescBy_filter, ih]
      by_cases hn : key x = n <;> simp [List.filter_cons, hn]

/-- Number of distinct documents referencing a topic: the distinct
`doc_id`s among the topic's reference records.  This is the quantity the
claim's words name (spec-side definition, for comparison with the code's
ranking key). -/
def distinctDocCount (refs : List TopicRef) : Nat :=
  ((refs.map TopicRef.doc_id).dedup).length

/-- Topic ranking as the claim words it (spec-side): ordered by the count
of documents referencing each topic, descending, ties broken stably by
first-occurrence order, first 15 kept. -/
def specTopicRanking (st : IndexState) : List (String × List TopicRef) :=
  (stableSortDescBy (fun p => distinctDocCount p.2) st.topic_index).take 15

/-- A fixed input for C9's counterexample: document `u` references topic
`"U"` once; document `t` lists topic `"T"` twice, producing two index
records for one referencing document. -/
def docsC9 : List Doc :=
  [{ id := some "u", metadata := { topics := ["U"] } },
   { id := some "t", metadata := { topics := ["T", "T"] } }]

/-- C9 counterexample: on `docsC9` both topics are referenced by exactly
one document each, so ordering by referencing-document count with stable
ties must list `"U"` (first occurrence) before `"T"`; the report instead
ranks by the size of the record list (2 for `"T"`) and prints `"T"` first.
The printed ranking therefore is not ordered by the count of documents
referencing each topic. -/
theorem c9_counterexample :
    ((sortedTopicsOf (buildIndexState docsC9)).take 15).map Prod.fst = ["T", "U"]
    ∧ (specTopicRanking (buildIndexState docsC9)).map Prod.fst = ["U", "T"]
    ∧ (∀ p ∈ (buildIndexState docsC9).topic_index, distinctDocCount p.2 = 1)
    ∧ ((sortedTopicsOf (buildIndexState docsC9)).take 15).map Prod.fst
        ≠ (specTopicRanking (buildIndexState docsC9)).map Prod.fst := by
  refine ⟨by decide, by decide, by decide, by decide⟩

/-- C9 (amended): the top-topics ranking lists the topic index's entries
ordered by the size of each topic's reference-record list — the number of
occurrences across all documents, which equals the referencing-document
count only when no document repeats a topic — in descending order, with
ties broken by original iteration order of first occurrence (stable sort:
within any fixed record count the sorted order equals the index's
insertion order), and only the first 15 ranked entries are printed. -/
theorem c9_top_topics_ranking (documents : List Doc) :
    List.Perm (sortedTopicsOf (buildIndexState documents))
        (buildIndexState documents).topic_index
    ∧ List.Pairwise (fun a b => b.2.length ≤ a.2.length)
        (sortedTopicsOf (buildIndexState documents))
    ∧ (∀ n : Nat, (sortedTopicsOf (buildIndexState documents)).filter
          (fun p => p.2.length == n)
        = (buildIndexState documents).topic_index.filter (fun p => p.2.length == n))
    ∧ (topTopicWrites documents (buildIndexState documents)).length
        = min 15 (sortedTopicsOf (buildIndexState documents)).length := by
  refine ⟨stableSortDescBy_perm _ _, stableSortDescBy_sorted _ _,
    fun n => stableSortDescBy_filter _ n _, ?_⟩
  unfold topTopicWrites
  rw [List.length_map, List.length_take]
